import Mathlib

/-!
Shallow embedding of the Hopscotch hash table of
src/mtl/include/mtl/hashing.h (class mtl::hashing) together with the prime
helpers of src/mtl/include/mtl/algorithms.h, and proofs checking the
specification claims about it.

Modelling conventions:
- The element type T is instantiated at Nat.  The pluggable hash functor is a
  parameter hf : Nat -> Nat; the repository tests instantiate T = int with
  std::hash<int>, which is the identity on the platforms the tests assume
  (the tests expect 101 to collide with the home bucket of 0).
- size_t arithmetic is Nat with explicit wrap modulo 2^64 where the source can
  overflow or underflow (the decrement of size_ in remove, and the raw
  subtraction pos - hash_val in insert).
- Operations that can fail to return normally are Option-valued; none models
  a thrown exception (std::bitset::set/reset on an index >= 32 throws
  std::out_of_range), an out-of-bounds array access (undefined behaviour), or
  a loop that never terminates.
- In move_elem, remove and contains the source copies a cell by value
  (auto cell = data_[...];), so the hop-bit updates performed on that copy
  never reach the table; the model therefore performs no such update and only
  reads through the copy.
-/

namespace mtl

/-- The size_t modulus 2^64. -/
def WORD : Nat := 2 ^ 64

/-- size_t subtraction a - b for a, b < 2^64 (wraps on underflow). -/
def usub (a b : Nat) : Nat := (a + WORD - b) % WORD

/-- One array cell of the table: occupancy flag, bitset<MAX_DIST> hop_info
(stored as a Nat below 2^32), and the stored element.  MAX_DIST = 32. -/
structure Cell where
  occupied : Bool
  hop_info : Nat
  elem : Nat
deriving DecidableEq

/-- A default-constructed Cell: occupied_ {false}, empty bitmap,
value-initialized int element (0). -/
def cellDefault : Cell := ⟨false, 0, 0⟩

/-- Cell::get_hop(dist): hop_info_[dist].  Only called with dist < 32 in the
source (bitset operator[] does no bounds check). -/
def Cell.get_hop (c : Cell) (dist : Nat) : Bool := c.hop_info.testBit dist

/-- Cell::set_hop(dist): hop_info_.set(dist); occupied_ = true.
std::bitset::set throws std::out_of_range for dist >= 32 (modelled none). -/
def Cell.set_hop (dist : Nat) (c : Cell) : Option Cell :=
  if dist < 32 then some ⟨true, c.hop_info ||| 2 ^ dist, c.elem⟩ else none

/-- Cell::clear_hop(dist): hop_info_.reset(dist); occupied_ = false.
std::bitset::reset throws std::out_of_range for dist >= 32 (modelled none). -/
def Cell.clear_hop (dist : Nat) (c : Cell) : Option Cell :=
  if dist < 32 then
    some ⟨false, if c.hop_info.testBit dist then c.hop_info - 2 ^ dist else c.hop_info, c.elem⟩
  else none

/-- Cell::set_occupied(). -/
def Cell.set_occupied (c : Cell) : Cell := ⟨true, c.hop_info, c.elem⟩

/-- Cell::set_unoccupied(). -/
def Cell.set_unoccupied (c : Cell) : Cell := ⟨false, c.hop_info, c.elem⟩

/-- Cell::set_element(elem): elem_ = elem; set_occupied(). -/
def Cell.set_element (v : Nat) (c : Cell) : Cell := ⟨true, c.hop_info, v⟩

/-- is_prime from algorithms.h: trial division by 2, 3 and 6k +- 1.
The loop variable i advances by 6 while i * i <= num; the fuel argument of the
auxiliary strictly bounds the number of iterations (at most num). -/
def isPrimeAux (n : Nat) : Nat → Nat → Bool
  | _, 0 => true
  | i, f + 1 =>
    if i * i ≤ n then
      if n % i == 0 || n % (i + 2) == 0 then false else isPrimeAux n (i + 6) f
    else true

/-- is_prime(num) from algorithms.h. -/
def is_prime (n : Nat) : Bool :=
  if n ≤ 1 then false
  else if n ≤ 3 then true
  else if n % 2 == 0 || n % 3 == 0 then false
  else isPrimeAux n 5 n

/-- next_prime from algorithms.h: increment until is_prime holds.  By
the Bertrand postulate the next prime after n is below 2n, so fuel n + 2 always
suffices for n > 1. -/
def nextPrimeAux : Nat → Nat → Nat
  | p, 0 => p
  | p, f + 1 => if is_prime (p + 1) then p + 1 else nextPrimeAux (p + 1) f

/-- next_prime(n) from algorithms.h (returns 2 for n <= 1). -/
def next_prime (n : Nat) : Nat := if n ≤ 1 then 2 else nextPrimeAux n (n + 2)

/-- The whole table state: size_ (a size_t value), max_size_ and the cell
array data_ (length max_size_ in every state the code builds). -/
structure HashState where
  size : Nat
  maxSize : Nat
  data : List Cell
deriving DecidableEq

/-- DEFAULT_SIZE = 101. -/
def DEFAULT_SIZE : Nat := 101

/-- init(size): fresh all-default cell array, size_ = 0, max_size_ = size. -/
def initState (n : Nat) : HashState := ⟨0, n, List.replicate n cellDefault⟩

/-- The default constructor hashing(): init(DEFAULT_SIZE). -/
def hashingDefault : HashState := initState DEFAULT_SIZE

/-- clear(): clear_all(); init(DEFAULT_SIZE).  The old array (whatever its
capacity) is discarded. -/
def clear (_s : HashState) : HashState := initState DEFAULT_SIZE

/-- static_cast<size_t>(max_size_ * MAX_LOAD_FACTOR) with MAX_LOAD_FACTOR =
0.8.  Computed exactly as floor(4 * ms / 5); this agrees with the C++ double
computation for every capacity the table can reach (capacities are primes,
hence never divisible by 5, so the real value 4ms/5 is at least 1/5 away from
an integer, far beyond double rounding error). -/
def threshold (ms : Nat) : Nat := ms * 4 / 5

/-- hash_value(elem): hash functor applied to elem, reduced mod max_size_. -/
def hash_value (hf : Nat → Nat) (s : HashState) (e : Nat) : Nat :=
  hf e % s.maxSize

/-- contains(elem): copy cell = data_[hash_val]; scan i = 0..31; return true
on the first i with cell.get_hop(i) && cell.element() == elem.  Note the
source compares the element stored in the home cell itself for every i. -/
def contains (hf : Nat → Nat) (e : Nat) (s : HashState) : Bool :=
  let cell := s.data.getD (hash_value hf s e) cellDefault
  (List.range 32).any (fun i => cell.get_hop i && (cell.elem == e))

/-- The loop of find_pos: advance (with wrap at max_size_) while the current
cell is occupied by a different element.  The fuel equals max_size_ at the
entry point: after max_size_ steps the probe has revisited its start, so the
source loop would run forever (modelled none). -/
def findPosAux (s : HashState) (e : Nat) : Nat → Nat → Option Nat
  | _, 0 => none
  | pos, f + 1 =>
    let c := s.data.getD pos cellDefault
    if c.occupied && !(c.elem == e) then
      let p1 := pos + 1
      findPosAux s e (if p1 == s.maxSize then 0 else p1) f
    else some pos

/-- find_pos(elem) from hashing.h. -/
def find_pos (hf : Nat → Nat) (s : HashState) (e : Nat) : Option Nat :=
  findPosAux s e (hash_value hf s e) s.maxSize

/-- The nested donor scan of move_elem: outer index i = 0..30 copies
cell = data_[start + i] (none when start + i is out of bounds, an undefined
read in the source), inner j = 0..(30 - i) looks for a set hop bit of the
copy.  Returns the first (i, j) hit, or some none when the scan is exhausted
(the sentinel path). -/
def moveScan (d : List Cell) (ms start : Nat) : Nat → Nat → Option (Option (Nat × Nat))
  | _, 0 => some none
  | i, r + 1 =>
    if start + i < ms then
      match (List.range (31 - i)).find? (fun j => (d.getD (start + i) cellDefault).get_hop j) with
      | some j => some (some (i, j))
      | none => moveScan d ms start (i + 1) r
    else none

/-- move_elem(pos) from hashing.h.  start is max_size_ + pos - MAX_DIST + 1
when pos < MAX_DIST - 1, else pos + 1 - MAX_DIST.  On a hit at (i, j):
new_pos = (start + i + j) % max_size_; data_[pos].set_element(move of
data_[new_pos].element()); data_[new_pos].set_unoccupied(); the two hop-bit
updates act on the local copy cell only and are dropped; returns new_pos.
Returns max_size_ (the sentinel) when the scan finds no bit. -/
def move_elem (ms : Nat) (d : List Cell) (pos : Nat) : Option (Nat × List Cell) :=
  let start := if pos < 31 then ms + pos - 31 else pos - 31
  match moveScan d ms start 0 31 with
  | none => none
  | some none => some (ms, d)
  | some (some (i, j)) =>
    let np := (start + i + j) % ms
    let d1 := d.set pos (Cell.set_element ((d.getD np cellDefault).elem) (d.getD pos cellDefault))
    let d2 := d1.set np (Cell.set_unoccupied (d1.getD np cellDefault))
    some (np, d2)

/-- The forward probe distance used by the while condition of insert:
pos >= hash_val ? pos - hash_val : max_size_ - hash_val + pos. -/
def fwdDist (ms hv pos : Nat) : Nat :=
  if pos ≥ hv then pos - hv else ms - hv + pos

/-- The displacement loop of insert: while fwdDist >= MAX_DIST, pos =
move_elem(pos); if pos == max_size_, insert returns false.  Returns
some (none, d) for the return-false path and some (some pos, d) when the
loop exits normally.  Each move_elem hit lands 1..31 slots before pos, so the
distance strictly decreases and maxSize fuel suffices. -/
def dispLoop (ms hv : Nat) : Nat → Nat → List Cell → Option (Option Nat × List Cell)
  | 0, _, _ => none
  | f + 1, pos, d =>
    if fwdDist ms hv pos ≥ 32 then
      match move_elem ms d pos with
      | none => none
      | some (np, d1) =>
        if np == ms then some (none, d1) else dispLoop ms hv f np d1
    else some (some pos, d)

/-- The body of insert(elem), with the expansion step abstracted as expandFn
(insert, expand and rehash are mutually recursive in the source; the fuel of
expandN below unfolds that recursion). -/
def insertAux (hf : Nat → Nat) (expandFn : HashState → Option HashState)
    (e : Nat) (s : HashState) : Option (Bool × HashState) :=
  if contains hf e s then some (false, s)
  else
    match (if s.size ≥ threshold s.maxSize then expandFn s else some s) with
    | none => none
    | some s1 =>
      let hv := hash_value hf s1 e
      match find_pos hf s1 e with
      | none => none
      | some p0 =>
        match dispLoop s1.maxSize hv s1.maxSize p0 s1.data with
        | none => none
        | some (none, d) => some (false, ⟨s1.size, s1.maxSize, d⟩)
        | some (some pos, d) =>
          let c0 := d.getD pos cellDefault
          let d1 := d.set pos ⟨c0.occupied, c0.hop_info, e⟩
          match Cell.set_hop (usub pos hv) (d1.getD pos cellDefault) with
          | none => none
          | some c1 => some (true, ⟨(s1.size + 1) % WORD, s1.maxSize, d1.set pos c1⟩)

/-- The reinsertion loop of rehash: for each occupied old cell, run insert
(whose boolean result the source discards) against the new table. -/
def rehashLoop (ins : Nat → HashState → Option (Bool × HashState)) :
    List Cell → HashState → Option HashState
  | [], st => some st
  | c :: rest, st =>
    if c.occupied then
      match ins c.elem st with
      | none => none
      | some p => rehashLoop ins rest p.2
    else rehashLoop ins rest st

/-- expand() / rehash(next_prime(2 * max_size_)) with nested-expansion depth
n: allocate a fresh all-default array of the new capacity, reset size_ to 0,
and replay every occupied old cell through insert.  A nested expansion during
the replay would use depth n - 1 (it cannot actually trigger: the replay
inserts at most max_size_ old elements and the new threshold exceeds the old
capacity). -/
def expandN (hf : Nat → Nat) : Nat → HashState → Option HashState
  | 0, _ => none
  | n + 1, s =>
    let nc := next_prime (s.maxSize * 2)
    rehashLoop (insertAux hf (expandN hf n)) s.data (initState nc)

/-- insert(elem) from hashing.h, with expansion depth 8 (no run of the code
can nest expansions anywhere near that deep). -/
def insert (hf : Nat → Nat) (e : Nat) (s : HashState) : Option (Bool × HashState) :=
  insertAux hf (expandN hf 8) e s

/-- remove(elem): copy cell = data_[hash_val]; scan i = 0..31 for
cell.get_hop(i) && cell.element() == elem; on a hit, the clear_hop acts on
the copy only (dropped), data_[hash_val + i].set_unoccupied() (an undefined
out-of-bounds write when hash_val + i >= max_size_, modelled none), size_
decremented with size_t wrap, return true. -/
def remove (hf : Nat → Nat) (e : Nat) (s : HashState) : Option (Bool × HashState) :=
  let hv := hash_value hf s e
  let cell := s.data.getD hv cellDefault
  match (List.range 32).find? (fun i => cell.get_hop i && (cell.elem == e)) with
  | none => some (false, s)
  | some i =>
    if hv + i < s.maxSize then
      some (true, ⟨usub s.size 1, s.maxSize,
        s.data.set (hv + i) (Cell.set_unoccupied (s.data.getD (hv + i) cellDefault))⟩)
    else none

/-- begin(): an iterator whose cursor is data_ itself, i.e. physical index 0,
whatever the occupancy of slot 0. -/
def iterBegin (_s : HashState) : Nat := 0

/-- end(): cursor data_ + max_size_, i.e. physical index max_size_. -/
def iterEnd (s : HashState) : Nat := s.maxSize

/-- The do-while of hashing_iterator::operator++: increment the cursor, then
keep incrementing while it is below end and the cell is unoccupied.  The fuel
bounds the remaining slots. -/
def itAdvanceAux (cells : List Cell) : Nat → Nat → Nat
  | cur, 0 => cur
  | cur, f + 1 =>
    if cur < cells.length && !(cells.getD cur cellDefault).occupied then
      itAdvanceAux cells (cur + 1) f
    else cur

/-- operator++ applied to a cursor at index cur. -/
def itAdvance (cells : List Cell) (cur : Nat) : Nat :=
  itAdvanceAux cells (cur + 1) cells.length

/-- The positions a cursor dereferences when walked from index cur with ++
while it is below end (the iteration pattern of the repository tests). -/
def itVisitsAux (cells : List Cell) : Nat → Nat → List Nat
  | 0, _ => []
  | f + 1, cur =>
    if cur < cells.length then cur :: itVisitsAux cells f (itAdvance cells cur) else []

/-- All positions dereferenced by the begin()-to-end() walk. -/
def itVisits (cells : List Cell) : List Nat :=
  itVisitsAux cells (cells.length + 1) 0

/-- Number of occupied slots of a cell array. -/
def countOcc (d : List Cell) : Nat := (d.filter (fun c => c.occupied)).length

/-- A public table operation, for describing reachable states. -/
inductive Op where
  | ins (e : Nat)
  | rem (e : Nat)
  | clr
deriving DecidableEq

/-- Run one operation (discarding the boolean result). -/
def runOp (hf : Nat → Nat) (s : HashState) : Op → Option HashState
  | .ins e => (insert hf e s).map (fun p => p.2)
  | .rem e => (remove hf e s).map (fun p => p.2)
  | .clr => some (clear s)

/-- Run a sequence of operations from a freshly default-constructed table. -/
def runOps (hf : Nat → Nat) (ops : List Op) : Option HashState :=
  ops.foldlM (runOp hf) hashingDefault

/-- The identity hash: what std::hash<int> computes for non-negative int on
the platforms the repository tests assume. -/
def idHash : Nat → Nat := fun n => n

/-- Whether the slot at physical index i is occupied. -/
def occAt (cells : List Cell) (i : Nat) : Bool := (cells.getD i cellDefault).occupied

theorem itAdvanceAux_spec (cells : List Cell) :
    ∀ f c, cells.length ≤ c + f → c ≤ cells.length →
      c ≤ itAdvanceAux cells c f ∧ itAdvanceAux cells c f ≤ cells.length ∧
      (∀ k, c ≤ k → k < itAdvanceAux cells c f → occAt cells k = false) ∧
      (itAdvanceAux cells c f < cells.length → occAt cells (itAdvanceAux cells c f) = true) := by
  intro f
  induction f with
  | zero =>
    intro c h1 h2
    simp only [itAdvanceAux]
    exact ⟨Nat.le_refl c, h2, fun k hk1 hk2 => absurd hk2 (by omega), fun hlt => absurd hlt (by omega)⟩
  | succ f ih =>
    intro c h1 h2
    simp only [itAdvanceAux]
    by_cases hcond : (decide (c < cells.length) && !(cells.getD c cellDefault).occupied) = true
    · rw [if_pos hcond]
      rw [Bool.and_eq_true] at hcond
      have hclt : c < cells.length := by simpa using hcond.1
      have hocc : occAt cells c = false := by simpa [occAt] using hcond.2
      obtain ⟨a1, a2, a3, a4⟩ := ih (c + 1) (by omega) (by omega)
      refine ⟨by omega, a2, ?_, a4⟩
      intro k hk1 hk2
      rcases Nat.eq_or_lt_of_le hk1 with h | h
      · rw [← h]; exact hocc
      · exact a3 k (by omega) hk2
    · rw [if_neg hcond]
      refine ⟨Nat.le_refl c, h2, fun k hk1 hk2 => absurd hk2 (by omega), ?_⟩
      intro hlt
      rw [Bool.and_eq_true] at hcond
      push_neg at hcond
      have := hcond (by simpa using hlt)
      simpa [occAt] using this

theorem filter_occ_split (cells : List Cell) (c : Nat) (hc : c < cells.length) :
    (List.range' (c + 1) (cells.length - (c + 1))).filter (occAt cells) =
      (if itAdvance cells c < cells.length then
        itAdvance cells c ::
          (List.range' (itAdvance cells c + 1) (cells.length - (itAdvance cells c + 1))).filter
            (occAt cells)
      else []) := by
  have hadv : itAdvance cells c = itAdvanceAux cells (c + 1) cells.length := rfl
  obtain ⟨a1, a2, a3, a4⟩ := itAdvanceAux_spec cells cells.length (c + 1) (by omega) (by omega)
  rw [← hadv] at a1 a2 a3 a4
  have hstart : c + 1 + (itAdvance cells c - (c + 1)) = itAdvance cells c := by omega
  have hsum : cells.length - itAdvance cells c + (itAdvance cells c - (c + 1)) =
      cells.length - (c + 1) := by omega
  have hsplit := List.range'_append_1 (c + 1) (itAdvance cells c - (c + 1))
    (cells.length - itAdvance cells c)
  rw [hstart, hsum] at hsplit
  rw [← hsplit, List.filter_append]
  have hnil : (List.range' (c + 1) (itAdvance cells c - (c + 1))).filter (occAt cells) = [] := by
    rw [List.filter_eq_nil_iff]
    intro a ha
    rw [List.mem_range'_1] at ha
    simp [a3 a (by omega) (by omega)]
  rw [hnil, List.nil_append]
  by_cases hrlen : itAdvance cells c < cells.length
  · rw [if_pos hrlen]
    have hlen : cells.length - itAdvance cells c = cells.length - (itAdvance cells c + 1) + 1 := by
      omega
    rw [hlen, List.range'_succ, List.filter_cons]
    simp [a4 hrlen]
  · rw [if_neg hrlen]
    have hlen : cells.length - itAdvance cells c = 0 := by omega
    simp [hlen]

theorem itVisitsAux_spec (cells : List Cell) :
    ∀ f c, cells.length < c + f → c ≤ cells.length →
      itVisitsAux cells f c =
        (if c < cells.length then
          c :: (List.range' (c + 1) (cells.length - (c + 1))).filter (occAt cells)
        else []) := by
  intro f
  induction f with
  | zero =>
    intro c h1 h2
    simp only [itVisitsAux]
    rw [if_neg (by omega)]
  | succ f ih =>
    intro c h1 h2
    simp only [itVisitsAux]
    by_cases hc : c < cells.length
    · rw [if_pos hc, if_pos hc]
      congr 1
      have hadv : itAdvance cells c = itAdvanceAux cells (c + 1) cells.length := rfl
      obtain ⟨a1, a2, a3, a4⟩ := itAdvanceAux_spec cells cells.length (c + 1) (by omega) (by omega)
      rw [← hadv] at a1 a2
      rw [ih (itAdvance cells c) (by omega) a2]
      exact (filter_occ_split cells c hc).symm
    · rw [if_neg hc, if_neg hc]

/-- Claim C1 (refuted; the code violates its own hopscotch-invariant intent).
In the reachable state after insert(5); remove(5) on a fresh table with the
identity hash, hop bit 0 of home slot 5 is still set although slot 5 is
unoccupied and in fact no slot of the table is occupied at all, so a hop bit
is set with no element of that home occupying the offset.  The bit survives
because remove clears it only on a by-value copy of the cell. -/
theorem hop_bit_without_occupant :
    (runOps idHash [Op.ins 5, Op.rem 5]).map (fun s =>
      ((s.data.getD 5 cellDefault).get_hop 0, (s.data.getD 5 cellDefault).occupied,
        s.data.all (fun c => !c.occupied), s.size)) = some (true, false, true, 0) := by
  decide

/-- Claim C2 (refuted).  Inserting the distinct elements 0 and 101 into a
fresh capacity-101 table (both inserts return true, size becomes 2, the load
stays far below 0.8 * capacity, and 101 is physically stored in slot 1 with
hop bit 1) nevertheless leaves contains(101) = false, because contains
compares the stored element of the home cell itself for every hop bit instead of the
element at offset i. -/
theorem inserted_element_not_contained :
    ((insert idHash 0 hashingDefault).bind (fun p1 =>
      (insert idHash 101 p1.2).map (fun p2 =>
        (p1.1, p2.1, p2.2.size, p2.2.data.getD 1 cellDefault,
          contains idHash 101 p2.2, contains idHash 0 p2.2)))) =
      some (true, true, 2, Cell.mk true 2 101, false, true) := by
  decide

/-- Claim C3 (refuted).  In the reachable state after inserting 0..9 and 101
(11 occupied slots), position 41 is blocked at forward distance 32 from home
9, and move_elem(41) returns 20 - not the sentinel 101 - although slot 20 was
unoccupied: no existing element is relocated; instead the default value of
the empty slot 20 is copied into slot 41, which becomes occupied, raising the
occupied-slot count from 11 to 12. -/
theorem move_elem_relocates_empty_slot :
    ((runOps idHash ((List.range 10).map Op.ins ++ [Op.ins 101])).bind (fun s =>
      (move_elem s.maxSize s.data 41).map (fun r =>
        (fwdDist s.maxSize 9 41, (s.data.getD 20 cellDefault).occupied, countOcc s.data,
          r.1, countOcc r.2, r.2.getD 41 cellDefault)))) =
      some (32, false, 11, 20, 12, Cell.mk true 0 0) := by
  decide

/-- Claim C4 (refuted).  On a fresh table the element 5 is not present;
insert(5) then remove(5) restores size() to 0 but leaves contains(5) = true,
because remove cleared the hop bit only on a by-value copy of the home cell
and the stale element value still sits in the (unoccupied) slot. -/
theorem round_trip_still_contained :
    (contains idHash 5 hashingDefault,
      ((insert idHash 5 hashingDefault).bind (fun p1 =>
        (remove idHash 5 p1.2).map (fun p2 => (p1.1, p2.1, p2.2.size, contains idHash 5 p2.2))))) =
      (false, some (true, true, 0, true)) := by
  decide

/-- Claim C5 (refuted).  The trace below drives size_ to 2^64 - 1 by a
size_t underflow (each insert x; remove x; remove x triple nets -1), leaving
the four elements 208, 209, 210, 419 in the table (slot 15 holds 419).  The
next insert therefore triggers the expansion to next_prime(202) = 211, and
during the rebuild the re-insert of 419 (home 208 in the new table) wraps to
physical slot 0, where set_hop(0 - 208) computes the size_t value 2^64 - 208
and std::bitset::set throws std::out_of_range: the expansion aborts instead
of re-inserting every element, losing 419. -/
theorem expansion_aborts_dropping_element :
    ((runOps idHash [Op.ins 208, Op.ins 209, Op.ins 210, Op.ins 419,
        Op.ins 5, Op.rem 5, Op.rem 5, Op.ins 9, Op.rem 9, Op.rem 9,
        Op.ins 11, Op.rem 11, Op.rem 11, Op.ins 13, Op.rem 13, Op.rem 13,
        Op.ins 17, Op.rem 17, Op.rem 17]).map (fun s =>
      (s.size, s.maxSize, countOcc s.data, s.data.getD 15 cellDefault,
        decide (s.size ≥ threshold s.maxSize))) =
      some (2 ^ 64 - 1, 101, 4, Cell.mk true 1 419, true)) ∧
    ((runOps idHash [Op.ins 208, Op.ins 209, Op.ins 210, Op.ins 419,
        Op.ins 5, Op.rem 5, Op.rem 5, Op.ins 9, Op.rem 9, Op.rem 9,
        Op.ins 11, Op.rem 11, Op.rem 11, Op.ins 13, Op.rem 13, Op.rem 13,
        Op.ins 17, Op.rem 17, Op.rem 17]).bind (fun s => insert idHash 300 s)) = none := by
  constructor
  · decide
  · decide

/-- Claim C6 (refuted).  After insert(0); insert(101) the element 101 is
present in the table (slot 1 is occupied and stores 101), yet a second
insert(101) returns true and bumps size() from 2 to 3: the duplicate guard
relies on contains, which cannot see an element displaced from its home
slot. -/
theorem duplicate_insert_returns_true :
    ((runOps idHash [Op.ins 0, Op.ins 101]).bind (fun s =>
      (insert idHash 101 s).map (fun p =>
        ((s.data.getD 1 cellDefault).occupied, (s.data.getD 1 cellDefault).elem,
          s.size, p.1, p.2.size)))) =
      some (true, 101, 2, true, 3) := by
  decide

/-- Claim C7 (refuted).  insert(5); remove(5) works as claimed (first remove
returns true and puts size() back to 0), but a second remove(5) also returns
true - the stale hop bit and element of the copied home cell still match -
and decrements the size_t counter from 0 to 2^64 - 1. -/
theorem double_remove_underflows :
    ((insert idHash 5 hashingDefault).bind (fun p1 =>
      (remove idHash 5 p1.2).bind (fun p2 =>
        (remove idHash 5 p2.2).map (fun p3 => (p1.1, p2.1, p2.2.size, p3.1, p3.2.size))))) =
      some (true, true, 0, true, 2 ^ 64 - 1) := by
  decide

/-- Claim C8 counterexample.  On a freshly constructed (empty) table, begin()
is not equal to end() - its cursor sits at physical index 0, not at the first
occupied slot - and the begin-to-end walk dereferences the unoccupied slot 0,
visiting 1 position although size() = 0. -/
theorem iterator_empty_table_cex :
    hashingDefault.size = 0 ∧ iterBegin hashingDefault ≠ iterEnd hashingDefault ∧
      itVisits hashingDefault.data = [0] := by
  decide

/-- Claim C8 (amended): begin() always points at physical index 0, whatever
the occupancy of slot 0; the ++ walk from begin() to end() visits index 0
unconditionally and after it exactly the occupied physical indices in
strictly increasing order; in particular, when slot 0 is occupied the walk
visits exactly the occupied slots, each once, in increasing index order. -/
theorem iteration_visits (cells : List Cell) (h : 0 < cells.length) :
    itVisits cells = 0 :: (List.range' 1 (cells.length - 1)).filter (occAt cells) ∧
      List.Pairwise (· < ·) (itVisits cells) ∧
      (occAt cells 0 = true →
        itVisits cells = (List.range cells.length).filter (occAt cells)) := by
  have h0 : itVisits cells = 0 :: (List.range' 1 (cells.length - 1)).filter (occAt cells) := by
    have hs := itVisitsAux_spec cells (cells.length + 1) 0 (by omega) (by omega)
    rw [itVisits, hs, if_pos h]
  refine ⟨h0, ?_, ?_⟩
  · rw [h0]
    refine List.Pairwise.cons ?_ (List.Pairwise.filter _ (List.pairwise_lt_range' 1 _))
    intro b hb
    have hmem := List.mem_range'_1.mp (List.mem_of_mem_filter hb)
    omega
  · intro hocc
    rw [h0]
    conv_rhs => rw [List.range_eq_range', show cells.length = cells.length - 1 + 1 from by omega,
      List.range'_succ, List.filter_cons]
    simp [hocc]

/-- Witness for the amended C8 at a concrete three-slot array whose slots 0
and 2 are occupied. -/
theorem iteration_visits_witness :
    0 < ([Cell.mk true 1 5, cellDefault, Cell.mk true 1 7] : List Cell).length ∧
      (itVisits [Cell.mk true 1 5, cellDefault, Cell.mk true 1 7] =
          0 :: (List.range' 1 (([Cell.mk true 1 5, cellDefault,
            Cell.mk true 1 7] : List Cell).length - 1)).filter
            (occAt [Cell.mk true 1 5, cellDefault, Cell.mk true 1 7]) ∧
        List.Pairwise (· < ·) (itVisits [Cell.mk true 1 5, cellDefault, Cell.mk true 1 7]) ∧
        (occAt [Cell.mk true 1 5, cellDefault, Cell.mk true 1 7] 0 = true →
          itVisits [Cell.mk true 1 5, cellDefault, Cell.mk true 1 7] =
            (List.range ([Cell.mk true 1 5, cellDefault,
              Cell.mk true 1 7] : List Cell).length).filter
              (occAt [Cell.mk true 1 5, cellDefault, Cell.mk true 1 7]))) :=
  ⟨by decide, iteration_visits [Cell.mk true 1 5, cellDefault, Cell.mk true 1 7] (by decide)⟩

/-- Claim C9 counterexample.  Setting a hop bit does change the occupied
flag of a slot: on a default (unoccupied) cell, set_hop(3) flips occupied to true. -/
theorem set_hop_changes_occupied_cex :
    cellDefault.occupied = false ∧ Cell.set_hop 3 cellDefault = some (Cell.mk true 8 0) := by
  decide

/-- Claim C9 (amended): the hop-bit mutators are not pure metadata updates:
for any in-range offset, Cell::set_hop sets the bit and forces the
occupied flag of the cell to true, Cell::clear_hop clears the bit and forces the flag to
false, and neither changes the stored element; it is Cell::set_unoccupied
(used by remove and move_elem) that clears occupancy while leaving the
hop_info bitmap and the element untouched, which is how a slot can end up
unoccupied while carrying set hop bits. -/
theorem hop_ops_occupancy (c : Cell) (d : Nat) (h : d < 32) :
    Cell.set_hop d c = some (Cell.mk true (c.hop_info ||| 2 ^ d) c.elem) ∧
      Cell.clear_hop d c = some (Cell.mk false
        (if c.hop_info.testBit d then c.hop_info - 2 ^ d else c.hop_info) c.elem) ∧
      (Cell.set_unoccupied c).hop_info = c.hop_info ∧ (Cell.set_unoccupied c).elem = c.elem := by
  simp [Cell.set_hop, Cell.clear_hop, Cell.set_unoccupied, h]

/-- Witness for the amended C9 at the concrete cell (false, 5, 7), d = 2. -/
theorem hop_ops_occupancy_witness :
    (2 : Nat) < 32 ∧
      (Cell.set_hop 2 (Cell.mk false 5 7) = some (Cell.mk true (5 ||| 2 ^ 2) 7) ∧
        Cell.clear_hop 2 (Cell.mk false 5 7) = some (Cell.mk false
          (if (5 : Nat).testBit 2 then 5 - 2 ^ 2 else 5) 7) ∧
        (Cell.set_unoccupied (Cell.mk false 5 7)).hop_info = 5 ∧
        (Cell.set_unoccupied (Cell.mk false 5 7)).elem = 7) :=
  ⟨by decide, hop_ops_occupancy (Cell.mk false 5 7) 2 (by decide)⟩

/-- Claim C10 (confirmed).  clear() discards any table state - whatever its
size or grown capacity - and rebuilds a fresh default array: afterwards
size() = 0, max_size() = DEFAULT_SIZE = 101, and contains is false for every
element under every hash functor. -/
theorem clear_resets_table (s : HashState) (hf : Nat → Nat) (e : Nat) :
    (clear s).size = 0 ∧ (clear s).maxSize = DEFAULT_SIZE ∧
      contains hf e (clear s) = false := by
  refine ⟨rfl, rfl, ?_⟩
  have hlt : hf e % DEFAULT_SIZE < DEFAULT_SIZE := Nat.mod_lt _ (by norm_num [DEFAULT_SIZE])
  simp [contains, clear, initState, hash_value, Cell.get_hop, cellDefault,
    List.getD_eq_getElem?_getD, List.getElem?_replicate, hlt, Nat.zero_testBit]

end mtl
